import Mathlib

/-!
Verification of the version / range / dependency model of mcmodmanager.

The Python sources embedded here:
  * `src/mcmodmanager/health2.py` — `MavenVersion`, `VersionRange`,
    `DependencyChecker` (the local consistency checker);
  * `src/lib/searcher.py` — `ModSearcher.search_modrinth` and
    `ModSearcher.search_curseforge` (the remote resolution engine).

Modelling conventions:
  * Python `str` is modelled as Lean `String`; lowering and whitespace
    stripping are modelled over the ASCII alphabet the program's version
    strings use.
  * Python machine integers are `Int` / `Nat` (no overflow is involved).
  * The version model exists in two layers.  The primary layer
    (`classify`, `MavenVersion.make`, `VersionRange.parseE`, `parse`,
    `check_dependencies`) idealises digit classification to the decimal
    digits, on which `int(segment)` cannot fail; its only explicit failure
    is the `IndexError` candidate at `versions[0]` (`Option`, proved
    unreachable).  The exception-faithful layer (`classifyE`,
    `MavenVersion.makeE`, `VersionRange.parseFull`,
    `check_dependenciesE`) additionally models the `ValueError` that
    Python's `int()` raises on a segment `str.isdigit` accepts without
    being all decimal digits (such as the superscript `²`), the raise
    path of `MavenVersion._parse`.  The two layers provably coincide on
    strings free of such digit-class non-decimal characters.
  * Python `set` objects are modelled as duplicate-free lists built in
    insertion order; only membership and iteration matter here, and every
    consumer of an iterated set in the embedded code is order-insensitive.
-/

/-- Separator predicate of `MavenVersion._parse`: the regex `[.\-]`. -/
def isSep (c : Char) : Bool := c = '.' || c = '-'

/-- Splitting of a character list on a delimiter predicate, keeping empty
segments, exactly as Python's `re.split` / `str.split` do.  The result is
never the empty list. -/
def splitBy (p : Char → Bool) : List Char → List (List Char)
  | [] => [[]]
  | c :: rest =>
    if p c then [] :: splitBy p rest
    else
      match splitBy p rest with
      | [] => [[c]]
      | s :: ss => (c :: s) :: ss

/-- Python `str.strip()`: drop whitespace from both ends. -/
def pyStrip (l : List Char) : List Char :=
  ((l.dropWhile Char.isWhitespace).reverse.dropWhile Char.isWhitespace).reverse

/-- Python `str.lower()` over the ASCII alphabet. -/
def pyLower (s : String) : String := String.mk (s.toList.map Char.toLower)

/-- Lexicographic code-point comparison of character lists, Python's `<`
on strings. -/
def strLtList : List Char → List Char → Bool
  | [], t => ! t.isEmpty
  | _ :: _, [] => false
  | a :: as, b :: bs =>
    if a < b then true
    else if b < a then false
    else strLtList as bs

/-- Python `s < t` on strings. -/
def pyStrLt (s t : String) : Bool := strLtList s.toList t.toList

/-- One comparable part of a Maven version, as produced by
`MavenVersion._parse`: `('int', n)`, `('qualifier', rank, text)` or
`('str', lowered, original)`. -/
inductive VPart where
  | int (n : Nat)
  | qualifier (rank : Nat) (text : String)
  | str (lowered : String) (original : String)
deriving DecidableEq, Repr

/-- Python `int(segment)` on an all-digit segment. -/
def segToNat (l : List Char) : Nat :=
  l.foldl (fun n c => n * 10 + (c.toNat - 48)) 0

/-- The known-qualifier table of `MavenVersion._parse`. -/
def qualRank (lower : String) : Option Nat :=
  if lower = "alpha" || lower = "a" then some 1
  else if lower = "beta" || lower = "b" then some 2
  else if lower = "milestone" || lower = "m" then some 3
  else if lower = "rc" || lower = "cr" then some 4
  else if lower = "snapshot" then some 5
  else if lower = "final" || lower = "ga" then some 6
  else none

/-- Classification of one segment in `MavenVersion._parse`: digits become
`int`, empty segments are dropped, known qualifiers (case-insensitively)
become `qualifier`, anything else becomes `str`.  Digit classification is
idealised here to the decimal digits, on which `int(segment)` is total;
`classifyE` below also carries the raise path of the full `str.isdigit`
classification. -/
def classify (seg : List Char) : Option VPart :=
  if seg ≠ [] ∧ seg.all Char.isDigit then some (.int (segToNat seg))
  else if seg = [] then none
  else
    let lower := String.mk (seg.map Char.toLower)
    match qualRank lower with
    | some r => some (.qualifier r (String.mk seg))
    | none => some (.str lower (String.mk seg))

/-- `MavenVersion._parse`: split on `.` and `-`, classify each segment,
dropping the empty ones. -/
def parseParts (s : String) : List VPart :=
  (splitBy isSep s.toList).filterMap classify

/-- The `MavenVersion` class: the raw string plus its parsed parts. -/
structure MavenVersion where
  original : String
  parts : List VPart
deriving DecidableEq, Repr

/-- The `MavenVersion(version_str)` constructor. -/
def MavenVersion.make (s : String) : MavenVersion :=
  ⟨s, parseParts s⟩

/-- String key used by the `'str'` branch of `MavenVersion._compare`:
a `str` part compares by its lowered text, other parts by the decimal
string of their numeric payload (`str(p[1])` in Python). -/
def partKeyStr : VPart → String
  | .int n => toString n
  | .qualifier r _ => toString r
  | .str lowered _ => lowered

/-- One positional comparison step of `MavenVersion._compare`.  A result of
`0` means this position ties and the loop continues. -/
def partCmp (p1 p2 : VPart) : Int :=
  match p1, p2 with
  | .int a, .int b => (a : Int) - (b : Int)
  | .int _, .qualifier _ _ => 1
  | .qualifier _ _, .int _ => -1
  | .qualifier r1 t1, .qualifier r2 t2 =>
    if r1 ≠ r2 then (r1 : Int) - (r2 : Int)
    else if t1 ≠ t2 then (if pyStrLt t1 t2 then -1 else 1)
    else 0
  | q1, q2 =>
    let s1 := partKeyStr q1
    let s2 := partKeyStr q2
    if s1 ≠ s2 then (if pyStrLt s1 s2 then -1 else 1) else 0

/-- Tail of the `_compare` loop once the left sequence is exhausted: every
remaining right part is compared against the `('int', 0)` pad. -/
def cmpPad : List VPart → Int
  | [] => 0
  | p2 :: r2 =>
    let c := partCmp (.int 0) p2
    if c ≠ 0 then c else cmpPad r2

/-- The positional loop of `MavenVersion._compare`: the shorter part list is
padded with `('int', 0)`; the first non-zero positional result decides. -/
def cmpParts : List VPart → List VPart → Int
  | [], l2 => cmpPad l2
  | p1 :: r1, [] =>
    let c := partCmp p1 (.int 0)
    if c ≠ 0 then c else cmpParts r1 []
  | p1 :: r1, p2 :: r2 =>
    let c := partCmp p1 p2
    if c ≠ 0 then c else cmpParts r1 r2

/-- `MavenVersion._compare`. -/
def MavenVersion.cmp (a b : MavenVersion) : Int :=
  cmpParts a.parts b.parts

/-- `MavenVersion.__lt__`. -/
def MavenVersion.ltb (a b : MavenVersion) : Bool := decide (a.cmp b < 0)

/-- `__le__` as derived by `functools.total_ordering` (`lt or eq`). -/
def MavenVersion.leb (a b : MavenVersion) : Bool := decide (a.cmp b ≤ 0)

/-- `__gt__` as derived by `functools.total_ordering` (`not (lt or eq)`). -/
def MavenVersion.gtb (a b : MavenVersion) : Bool := decide (0 < a.cmp b)

/-- `__ge__` as derived by `functools.total_ordering` (`not lt`). -/
def MavenVersion.geb (a b : MavenVersion) : Bool := decide (0 ≤ a.cmp b)

/-- `MavenVersion.__eq__`: order-equality via `_compare`. -/
def MavenVersion.beq (a b : MavenVersion) : Bool := decide (a.cmp b = 0)

/-- `MavenVersion.__hash__`: the hash is keyed on the raw input string. -/
def MavenVersion.pyhash (a : MavenVersion) : String := a.original

/-- One interval of a `VersionRange`, the positional tuple
`(min, min_inclusive, max, max_inclusive)`. -/
abbrev VInterval := Option MavenVersion × Bool × Option MavenVersion × Bool

/-- The `VersionRange` dataclass: a list of intervals. -/
structure VersionRange where
  intervals : List VInterval
deriving DecidableEq, Repr

/-- Characters whose presence switches `VersionRange.parse` from the
soft-requirement form to interval notation: any of `[](),`. -/
def rangeSpecialChar (c : Char) : Bool :=
  c = '[' || c = ']' || c = '(' || c = ')' || c = ','

/-- Body of the `for part in range_str.split(',')` loop of
`VersionRange.parse` for one comma-separated part: strip it, skip it when
empty or when it does not open with `[` or `(`, otherwise read the bracket
characters and at most two interior version strings.  `none` models the
`IndexError` Python would raise at `versions[0]` if the interior comma split
could ever produce an empty list. -/
def parseGroup (acc : List VInterval) (raw : List Char) : Option (List VInterval) :=
  let part := pyStrip raw
  if part = [] then some acc
  else if part.head? = some '[' ∨ part.head? = some '(' then
    let min_inclusive : Bool := part.head? = some '['
    let part := part.tail
    let maxp : Bool × List Char :=
      if part.getLast? = some ']' ∨ part.getLast? = some ')' then
        (part.getLast? = some ']', part.dropLast)
      else (false, part)
    let versions := (splitBy (fun c => c = ',') maxp.2).map pyStrip
    match versions with
    | [] => none
    | v0 :: rest =>
      let min_ver : Option MavenVersion :=
        if v0 ≠ [] then some (MavenVersion.make (String.mk v0)) else none
      let max_ver : Option MavenVersion :=
        match rest.head? with
        | some v1 => if v1 ≠ [] then some (MavenVersion.make (String.mk v1)) else none
        | none => none
      some (acc ++ [(min_ver, min_inclusive, max_ver, maxp.1)])
  else some acc

/-- `VersionRange.parse`, with the one possible `IndexError` made explicit
as `none` (it is proved unreachable below).  A string without `[](),`
becomes one soft interval; otherwise the string is split on every comma,
each part is handled by `parseGroup`, and an empty interval list falls back
to the soft-requirement form. -/
def VersionRange.parseE (range_str : String) : Option VersionRange :=
  let s := pyStrip range_str.toList
  if s.any rangeSpecialChar then
    match (splitBy (fun c => c = ',') s).foldlM parseGroup [] with
    | none => none
    | some intervals =>
      if intervals = [] then
        some ⟨[(some (MavenVersion.make (String.mk s)), true, none, false)]⟩
      else some ⟨intervals⟩
  else
    some ⟨[(some (MavenVersion.make (String.mk s)), true, none, false)]⟩

/-- `VersionRange.parse` as the total function it is in practice. -/
def VersionRange.parse (range_str : String) : VersionRange :=
  (VersionRange.parseE range_str).getD ⟨[]⟩

/-- Minimum-bound test of `VersionRange.contains`: with an inclusive bound
the interval is rejected when `version < min`, with an exclusive bound when
`version <= min`. -/
def boundOkMin (version : MavenVersion) : Option MavenVersion → Bool → Bool
  | some min_ver, true => ! version.ltb min_ver
  | some min_ver, false => ! version.leb min_ver
  | none, _ => true

/-- Maximum-bound test of `VersionRange.contains`. -/
def boundOkMax (version : MavenVersion) : Option MavenVersion → Bool → Bool
  | some max_ver, true => ! version.gtb max_ver
  | some max_ver, false => ! version.geb max_ver
  | none, _ => true

/-- `VersionRange.contains`: an empty interval list accepts everything,
otherwise some interval must pass both bound tests. -/
def VersionRange.contains (self : VersionRange) (version : MavenVersion) : Bool :=
  if self.intervals = [] then true
  else self.intervals.any fun iv =>
    match iv with
    | (min_ver, min_inc, max_ver, max_inc) =>
      boundOkMin version min_ver min_inc && boundOkMax version max_ver max_inc

/-- Intersection of one pair of intervals, the body of the nested loops of
`VersionRange.intersect`; `none` means the pair is discarded as empty. -/
def intersectPair (int1 int2 : VInterval) : Option VInterval :=
  match int1, int2 with
  | (min1, min_inc1, max1, max_inc1), (min2, min_inc2, max2, max_inc2) =>
    let newMin : Option MavenVersion × Bool :=
      match min1, min2 with
      | none, _ => (min2, min_inc2)
      | some _, none => (min1, min_inc1)
      | some a, some b =>
        if a.gtb b then (min1, min_inc1)
        else if a.ltb b then (min2, min_inc2)
        else (min1, min_inc1 && min_inc2)
    let newMax : Option MavenVersion × Bool :=
      match max1, max2 with
      | none, _ => (max2, max_inc2)
      | some _, none => (max1, max_inc1)
      | some a, some b =>
        if a.ltb b then (max1, max_inc1)
        else if a.gtb b then (max2, max_inc2)
        else (max1, max_inc1 && max_inc2)
    match newMin.1, newMax.1 with
    | some mn, some mx =>
      if mn.gtb mx then none
      else if mn.beq mx && ! (newMin.2 && newMax.2) then none
      else some (newMin.1, newMin.2, newMax.1, newMax.2)
    | _, _ => some (newMin.1, newMin.2, newMax.1, newMax.2)

/-- `VersionRange.intersect`: the nested accumulation loops over all pairs
of intervals from the two operands. -/
def VersionRange.intersect (self other : VersionRange) : VersionRange :=
  ⟨self.intervals.foldl (fun acc int1 =>
    other.intervals.foldl (fun acc int2 =>
      match intersectPair int1 int2 with
      | some iv => acc ++ [iv]
      | none => acc) acc) []⟩

/-- `VersionRange.is_empty`. -/
def VersionRange.is_empty (self : VersionRange) : Bool :=
  self.intervals.length == 0

/-- The `Dependency` dataclass of `health2.py` (the `ordering` field is
carried but never read by the checker). -/
structure Dependency where
  mod_id : String
  version_range : String
  mandatory : Bool
  ordering : String
  is_special : Bool
deriving DecidableEq, Repr

/-- The `ModInfo` dataclass, restricted to the fields the dependency
checker reads (`loader`, `file_path` and the jar-in-jar provenance fields
are only used for display elsewhere). -/
structure ModInfo where
  mod_id : String
  name : String
  version : String
  dependencies : List Dependency
  provides : List String
deriving DecidableEq, Repr

/-- Handling of one record in `DependencyChecker._build_mod_map`: assign
`mod_map[mod.mod_id] = mod` and then `mod_map[provided_id] = mod` for each
alias.  The dictionary is an association list where an assignment prepends
and a read takes the first hit, so a later assignment of the same key wins,
exactly like a Python dict. -/
def insRecord (mod_map : List (String × ModInfo)) (mod : ModInfo) : List (String × ModInfo) :=
  mod.provides.foldl (fun m provided_id => (provided_id, mod) :: m)
    ((mod.mod_id, mod) :: mod_map)

/-- `DependencyChecker._build_mod_map`: all records in input order. -/
def buildModMap (mods : List ModInfo) : List (String × ModInfo) :=
  mods.foldl insRecord []

/-- The classification of one finding reported by `check_dependencies`:
the four message shapes it can append. -/
inductive IssueKind where
  | pass
  | missing
  | incompatible
  | unverifiable
deriving DecidableEq, Repr

/-- One reported line of `check_dependencies`, with the message's data
fields kept structurally instead of formatted into a string. -/
structure Issue where
  mod_name : String
  mod_id : String
  dep_id : String
  dep_range : String
  kind : IssueKind
deriving DecidableEq, Repr

/-- Body of the inner dependency loop of
`DependencyChecker.check_dependencies`, threading the
`(all_satisfied, issues)` accumulator: special or optional dependencies are
skipped; an id absent from the map appends MISSING and clears the flag; an
unparseable range (`parseE = none`, in fact unreachable) appends the
`cannot verify` finding and keeps the flag; otherwise containment of the
found record's version decides between PASS and INCOMPATIBLE. -/
def stepDep (mod_map : List (String × ModInfo)) (mod : ModInfo)
    (acc : Bool × List Issue) (dep : Dependency) : Bool × List Issue :=
  if dep.is_special || ! dep.mandatory then acc
  else
    match List.lookup dep.mod_id mod_map with
    | none =>
      (false, acc.2 ++ [⟨mod.name, mod.mod_id, dep.mod_id, dep.version_range, .missing⟩])
    | some dep_mod =>
      match VersionRange.parseE dep.version_range with
      | none =>
        (acc.1, acc.2 ++ [⟨mod.name, mod.mod_id, dep.mod_id, dep.version_range, .unverifiable⟩])
      | some version_range =>
        if version_range.contains (MavenVersion.make dep_mod.version) then
          (acc.1, acc.2 ++ [⟨mod.name, mod.mod_id, dep.mod_id, dep.version_range, .pass⟩])
        else
          (false, acc.2 ++ [⟨mod.name, mod.mod_id, dep.mod_id, dep.version_range, .incompatible⟩])

/-- `DependencyChecker.check_dependencies`: the nested loops over records
and their dependencies, starting from `(True, [])`. -/
def check_dependencies (mods : List ModInfo) : Bool × List Issue :=
  let mod_map := buildModMap mods
  mods.foldl (fun acc mod => mod.dependencies.foldl (stepDep mod_map mod) acc) (true, [])

/-- Finding a single mandatory non-virtual dependency produces, written
directly from the specification's description of the checker: MISSING when
the target id is absent, UNVERIFIABLE when the range fails to parse, else
PASS or INCOMPATIBLE by containment; special or optional dependencies
produce nothing. -/
def depIssue (mod_map : List (String × ModInfo)) (mod : ModInfo)
    (dep : Dependency) : Option Issue :=
  if dep.is_special || ! dep.mandatory then none
  else some (
    match List.lookup dep.mod_id mod_map with
    | none => ⟨mod.name, mod.mod_id, dep.mod_id, dep.version_range, .missing⟩
    | some dep_mod =>
      match VersionRange.parseE dep.version_range with
      | none => ⟨mod.name, mod.mod_id, dep.mod_id, dep.version_range, .unverifiable⟩
      | some version_range =>
        if version_range.contains (MavenVersion.make dep_mod.version) then
          ⟨mod.name, mod.mod_id, dep.mod_id, dep.version_range, .pass⟩
        else
          ⟨mod.name, mod.mod_id, dep.mod_id, dep.version_range, .incompatible⟩)

/-- The findings in specification order: input record order, then
per-record dependency order. -/
def specFindings (mods : List ModInfo) : List Issue :=
  mods.flatMap fun mod => mod.dependencies.filterMap (depIssue (buildModMap mods) mod)

/-- A finding that does not count against overall satisfaction. -/
def issueOk (f : Issue) : Bool :=
  ! (f.kind == IssueKind.missing || f.kind == IssueKind.incompatible)

/-- Insertion into a Python set modelled as a duplicate-free list. -/
def insertSet {α : Type} [DecidableEq α] (s : List α) (a : α) : List α :=
  if a ∈ s then s else s ++ [a]

/-- Union of a set with the elements of a list (`set.union`, `|=`). -/
def unionSet {α : Type} [DecidableEq α] (s : List α) (l : List α) : List α :=
  l.foldl insertSet s

/-- Python `list.remove`: drop the first occurrence, `none` for the
`ValueError` raised when the element is absent. -/
def pyRemove (l : List String) (a : String) : Option (List String) :=
  match l with
  | [] => none
  | x :: xs => if x = a then some xs else (pyRemove xs a).map (x :: ·)

/-- One dependency reference of a Modrinth version record.  Modelled from
the spec: the `modrinth_api_wrapper` record types are an external
collaborator (spec section 6); only the fields the engine reads appear. -/
structure MRDependency where
  project_id : Option String
  version_id : Option String
  dependency_type : String
deriving DecidableEq, Repr

/-- One file of a Modrinth version record (only the `primary` flag is
relevant to the embedded engine logic). -/
structure MRFile where
  primary : Bool
deriving DecidableEq, Repr

/-- A Modrinth version record, restricted to the fields the engine reads. -/
structure MRVersion where
  id : String
  project_id : String
  version_number : Option String
  version_type : Option String
  game_versions : List String
  loaders : List String
  dependencies : List MRDependency
  files : List MRFile
deriving DecidableEq, Repr

/-- A Modrinth project record, restricted to the fields the engine reads. -/
structure MRProject where
  id : String
  slug : String
  game_versions : List String
  loaders : List String
deriving DecidableEq, Repr

/-- The Modrinth registry capability.  Modelled from the spec: the network
client is an external collaborator; a registry is a finite snapshot of
project and version records, and each lookup filters that snapshot. -/
structure MRRegistry where
  projects : List MRProject
  versions : List MRVersion

/-- `mrcli.get_projects`: projects matched by id or slug. -/
def getProjects (reg : MRRegistry) (keys : List String) : List MRProject :=
  reg.projects.filter fun p => keys.contains p.id || keys.contains p.slug

/-- `mrcli.list_project_versions`. -/
def listProjectVersions (reg : MRRegistry) (pid : String) : List MRVersion :=
  reg.versions.filter fun v => v.project_id == pid

/-- `mrcli.get_versions`: version records matched by id. -/
def getVersions (reg : MRRegistry) (ids : List String) : List MRVersion :=
  reg.versions.filter fun v => ids.contains v.id

/-- `filter_version_loader` of `ModSearcher.get_latest_versions`, over the
two list fields the duck-typed Python closure reads: a non-empty
`game_versions` must contain the target version and a non-empty `loaders`
must contain the target loader (`None` fields are modelled as `[]`). -/
def filterVersionLoader (mc_version mod_loader : String)
    (game_versions loaders : List String) : Bool :=
  if game_versions ≠ [] && ! game_versions.contains mc_version then false
  else if loaders ≠ [] && ! loaders.contains mod_loader then false
  else true

/-- `(ver.version_type or "alpha")`: Python `or` replaces both `None` and
the empty string. -/
def verTier (v : MRVersion) : String :=
  match v.version_type with
  | none => "alpha"
  | some s => if s = "" then "alpha" else s

/-- The Maven sort key of `get_latest_versions`:
`MavenVersion(v.version_number or "0.0.0")`. -/
def mrVerKey (v : MRVersion) : MavenVersion :=
  MavenVersion.make (match v.version_number with
    | none => "0.0.0"
    | some s => if s = "" then "0.0.0" else s)

/-- Stable descending insertion by the Maven key, matching Python's stable
`sorted(..., reverse=True)`: an element is placed after every earlier
element whose key is greater than or order-equal to its own. -/
def insertDesc (v : MRVersion) : List MRVersion → List MRVersion
  | [] => [v]
  | x :: xs =>
    if (mrVerKey v).cmp (mrVerKey x) > 0 then v :: x :: xs
    else x :: insertDesc v xs

/-- `sorted(versions, key=MavenVersion(...), reverse=True)`. -/
def sortDesc (l : List MRVersion) : List MRVersion :=
  l.foldl (fun acc v => insertDesc v acc) []

/-- `ModSearcher.get_latest_versions`: filter the projects by platform,
then per project filter its versions by platform and stability tier
(string comparison `version_type >= releaseType`), sort descending by
Maven key and keep the top one, when any survives. -/
def get_latest_versions (reg : MRRegistry) (mc_version mod_loader : String)
    (mods : List MRProject) (releaseType : String) : List (MRProject × MRVersion) :=
  if mods = [] then []
  else
    (mods.filter fun p =>
        filterVersionLoader mc_version mod_loader p.game_versions p.loaders).filterMap
      fun pro =>
        let vs := (listProjectVersions reg pro.id).filter fun v =>
          filterVersionLoader mc_version mod_loader v.game_versions v.loaders
        let vs := vs.filter fun ver => ! pyStrLt (verTier ver) releaseType
        (sortDesc vs).head?.map fun v => (pro, v)

/-- Phase 1 of `ModSearcher.search_modrinth`: for each selected
`(project, version)` pair append the version to the result, remove the
project's slug from the caller's `slugs` list (a `ValueError` from
`list.remove` is `none`) and add the project id to the seen-project set. -/
def phase1 : List (MRProject × MRVersion) → List MRVersion → List String →
    List String → Option (List MRVersion × List String × List String)
  | [], result, slugs, bucket_mod => some (result, slugs, bucket_mod)
  | (project, version) :: rest, result, slugs, bucket_mod =>
    match pyRemove slugs project.slug with
    | none => none
    | some slugs2 =>
      phase1 rest (result ++ [version]) slugs2 (insertSet bucket_mod project.id)

/-- The required dependencies referenced by a batch of versions. -/
def requiredDeps (versions : List MRVersion) : List MRDependency :=
  versions.flatMap fun v => v.dependencies.filter fun d => d.dependency_type == "required"

/-- The `while True` dependency-closure loop of
`ModSearcher.search_modrinth`, with an explicit fuel parameter: `none`
means the fuel ran out before the loop's own `break`.  State: the batch of
versions fetched by the previous iteration, the accumulated result and the
seen-project / seen-version sets. -/
def mrLoop (reg : MRRegistry) (mc_version mod_loader releaseType : String) :
    Nat → List MRVersion → List MRVersion → List String → List String →
    Option (List MRVersion)
  | 0, _, _, _, _ => none
  | fuel + 1, versions, result, bucket_mod, bucket_ver =>
    let dependencies := requiredDeps versions
    let depmod := dependencies.foldl (fun s dep =>
      match dep.project_id with
      | some modid =>
        if modid ≠ "" && ! bucket_mod.contains modid then insertSet s modid else s
      | none => s) []
    let depver0 := dependencies.foldl (fun s dep =>
      match dep.version_id with
      | some verid =>
        if verid ≠ "" && ! bucket_ver.contains verid then insertSet s verid else s
      | none => s) []
    let depmodver :=
      if depmod ≠ [] then
        get_latest_versions reg mc_version mod_loader (getProjects reg depmod) releaseType
      else []
    let bucket_mod2 := unionSet bucket_mod (depmodver.map fun pv => pv.1.id)
    let depver := unionSet depver0 (depmodver.map fun pv => pv.2.id)
    if depver = [] then some result
    else
      let versions2 := if depmod ≠ [] then getVersions reg depver else []
      let bucket_ver2 := unionSet bucket_ver (versions2.map fun v => v.id)
      mrLoop reg mc_version mod_loader releaseType fuel versions2 (result ++ versions2)
        bucket_mod2 bucket_ver2

/-- The final fix-up of `search_modrinth`: when no file of a version is
marked primary, the first file (if any) is marked. -/
def markPrimary (v : MRVersion) : MRVersion :=
  if v.files.any (fun f => f.primary) then v
  else
    match v.files with
    | [] => v
    | _ :: fs =>
      ⟨v.id, v.project_id, v.version_number, v.version_type, v.game_versions,
        v.loaders, v.dependencies, ⟨true⟩ :: fs⟩

/-- `ModSearcher.search_modrinth`.  The returned pair is the Python return
value together with the final state of the caller's `slugs` list (which the
Python code mutates in place); `none` models either a `ValueError` from
`slugs.remove` or fuel exhaustion of the closure loop. -/
def searchModrinth (reg : MRRegistry) (mc_version mod_loader : String) (fuel : Nat)
    (slugs : List String) (releaseType : Option String) :
    Option (List MRVersion × List String) :=
  let rt := pyLower (match releaseType with
    | none => "alpha"
    | some s => if s = "" then "alpha" else s)
  match phase1 (get_latest_versions reg mc_version mod_loader
      (getProjects reg slugs) rt) [] slugs [] with
  | none => none
  | some (result, slugs2, bucket_mod) =>
    let bucket_ver := result.foldl (fun s v => insertSet s v.id) []
    match mrLoop reg mc_version mod_loader rt fuel result result bucket_mod bucket_ver with
    | none => none
    | some result2 => some (result2.map markPrimary, slugs2)

/-- A dynamically-typed Python value as stored in the CurseForge seen set:
the code inserts slugs (strings) and tests numeric mod ids against them. -/
inductive PyVal where
  | pyint (n : Int)
  | pystr (s : String)
deriving DecidableEq, Repr

/-- One dependency reference of a CurseForge file record.  Modelled from
the spec: the `curseforge_api_wrapper` record types are an external
collaborator; `relationType = 3` marks a required dependency and `modId`
is numeric. -/
structure CFDependency where
  relationType : Nat
  modId : Int
deriving DecidableEq, Repr

/-- A CurseForge file record, restricted to the fields the closure loop
reads. -/
structure CFFile where
  id : Int
  dependencies : List CFDependency
deriving DecidableEq, Repr

/-- A CurseForge mod record, restricted to the fields the closure loop
reads. -/
structure CFMod where
  id : Int
  slug : String
deriving DecidableEq, Repr

/-- The CurseForge registry capability.  Modelled from the spec: `mods` is
the finite mod snapshot behind `cfcli.get_mods`, and `latestFile` abstracts
`ModSearcher.get_latest_file` (the paginated remote file lookup, an external
collaborator), returning the chosen file of a mod, when one is available. -/
structure CFRegistry where
  mods : List CFMod
  latestFile : Int → Option CFFile

/-- `cfcli.get_mods`: mod records matched by id. -/
def cfGetMods (reg : CFRegistry) (ids : List Int) : List CFMod :=
  reg.mods.filter fun m => ids.contains m.id

/-- The `depModIds` set of one iteration of the `search_curseforge`
closure loop: every required dependency's numeric mod id across all files,
except those already in the seen bucket — the membership test compares the
integer id against a bucket of slug strings. -/
def cfDepModIds (files : List CFFile) (bucket : List PyVal) : List Int :=
  files.foldl (fun s file =>
    file.dependencies.foldl (fun s dep =>
      if dep.relationType == 3 && ! bucket.contains (PyVal.pyint dep.modId) then
        insertSet s dep.modId
      else s) s) []

/-- The `while True` dependency-closure loop of
`ModSearcher.search_curseforge`, with an explicit fuel parameter (`none` =
fuel ran out before the loop's own `break`).  In the Python code `result`
aliases `files`, so the single list here plays both roles; each iteration
appends the files of the newly fetched mods and adds their slugs to the
seen bucket. -/
def cfLoop (reg : CFRegistry) : Nat → List CFFile → List PyVal → Option (List CFFile)
  | 0, _, _ => none
  | fuel + 1, files, bucket =>
    let depModIds := cfDepModIds files bucket
    if depModIds = [] then some files
    else
      let modfiles := (cfGetMods reg depModIds).filterMap fun mod =>
        (reg.latestFile mod.id).map fun file => (mod.slug, file)
      let files2 := files ++ modfiles.map fun sf => sf.2
      let bucket2 := modfiles.foldl (fun b sf => insertSet b (PyVal.pystr sf.1)) bucket
      cfLoop reg fuel files2 bucket2

/-- New lower bound of an interval intersection, written from the claim's
wording: the larger of the two mins, an absent min acting as negative
infinity, and on order-equal mins inclusive exactly when both are. -/
def claimMin : Option MavenVersion × Bool → Option MavenVersion × Bool →
    Option MavenVersion × Bool
  | (none, _), b => b
  | a, (none, _) => a
  | (some a, ia), (some b, ib) =>
    if a.cmp b > 0 then (some a, ia)
    else if a.cmp b < 0 then (some b, ib)
    else (some a, ia && ib)

/-- New upper bound of an interval intersection, written from the claim's
wording: the smaller of the two maxes, an absent max acting as positive
infinity, and on order-equal maxes inclusive exactly when both are. -/
def claimMax : Option MavenVersion × Bool → Option MavenVersion × Bool →
    Option MavenVersion × Bool
  | (none, _), b => b
  | a, (none, _) => a
  | (some a, ia), (some b, ib) =>
    if a.cmp b < 0 then (some a, ia)
    else if a.cmp b > 0 then (some b, ib)
    else (some a, ia && ib)

/-- Intersection of one pair of intervals written from the claim's wording:
combine the bounds with `claimMin` / `claimMax` and discard the pair when
the new min exceeds the new max, or equals it without both bounds
inclusive (bounds against an infinity are never discarded). -/
def claimPair (i1 i2 : VInterval) : Option VInterval :=
  match i1, i2 with
  | (min1, min_inc1, max1, max_inc1), (min2, min_inc2, max2, max_inc2) =>
    let mn := claimMin (min1, min_inc1) (min2, min_inc2)
    let mx := claimMax (max1, max_inc1) (max2, max_inc2)
    match mn.1, mx.1 with
    | some a, some b =>
      if a.cmp b > 0 then none
      else if a.cmp b = 0 ∧ ¬ (mn.2 ∧ mx.2) then none
      else some (mn.1, mn.2, mx.1, mx.2)
    | _, _ => some (mn.1, mn.2, mx.1, mx.2)

/-- Three records for exercising the id-to-record map: `modA` and `modB`
collide on the primary id `x`, `modC` is unrelated. -/
def modA : ModInfo := ⟨"x", "A", "1.0", [], []⟩

/-- Second record with primary id `x`, appearing after `modA`. -/
def modB : ModInfo := ⟨"x", "B", "2.0", [], []⟩

/-- Record with primary id `y`. -/
def modC : ModInfo := ⟨"y", "C", "3.0", [], []⟩

/-- A resolved CurseForge file carrying one required dependency
(`relationType = 3`) on mod id `42`. -/
def cfFileX : CFFile := ⟨100, [⟨3, 42⟩]⟩

/-- A CurseForge registry snapshot with no mods at all: every lookup
returns nothing, trivially finite and acyclic. -/
def cfRegX : CFRegistry := ⟨[], fun _ => none⟩

/-- A Modrinth project with slug `amod`. -/
def pC4 : MRProject := ⟨"P1", "amod", [], []⟩

/-- The single (release) version of `pC4`, with no dependencies. -/
def vC4 : MRVersion := ⟨"V1", "P1", some "1.0.0", some "release", [], [], [], []⟩

/-- A one-project Modrinth registry snapshot. -/
def regC4 : MRRegistry := ⟨[pC4], [vC4]⟩

/-- Python `str.isdigit` on one character: it accepts every character of
Unicode numeric type Digit or Decimal.  Modelled over the code points this
development exercises — the decimal digits together with the superscript
digits `¹`, `²`, `³`, which are of numeric type Digit but not Decimal. -/
def pyCharIsDigit (c : Char) : Bool :=
  c.isDigit || c = '¹' || c = '²' || c = '³'

/-- A character Python's `int()` accepts inside an integer literal:
numeric type Decimal.  The superscript digits are not among them, so a
segment that `isdigit`-classifies but contains one makes `int()` raise
`ValueError`. -/
def pyCharIsDecimal (c : Char) : Bool := c.isDigit

/-- A character list on which digit classification cannot make `int()`
raise: every digit-class character is a decimal digit. -/
def charsSafe (l : List Char) : Prop :=
  ∀ c ∈ l, pyCharIsDigit c = true → pyCharIsDecimal c = true

/-- Decidable form of `charsSafe` for a whole string. -/
def strSafe (s : String) : Bool :=
  s.toList.all fun c => ! pyCharIsDigit c || pyCharIsDecimal c

/-- Every string the checker feeds into range parsing or version
construction is safe: each record's version and each dependency's declared
range. -/
def modsSafe (mods : List ModInfo) : Bool :=
  mods.all fun mod =>
    strSafe mod.version &&
      mod.dependencies.all fun dep => strSafe dep.version_range

/-- Classification of one segment with the raise path of
`MavenVersion._parse` explicit: `segment.isdigit()` accepts a segment of
digit-class characters, and `int(segment)` then raises `ValueError` unless
they are all decimal digits. -/
def classifyE (seg : List Char) : Except Unit (Option VPart) :=
  if seg ≠ [] ∧ seg.all pyCharIsDigit then
    if seg.all pyCharIsDecimal then .ok (some (.int (segToNat seg)))
    else .error ()
  else if seg = [] then .ok none
  else
    let lower := String.mk (seg.map Char.toLower)
    match qualRank lower with
    | some r => .ok (some (.qualifier r (String.mk seg)))
    | none => .ok (some (.str lower (String.mk seg)))

/-- `MavenVersion._parse` with the raise path: the append loop over the
segments, propagating the first `ValueError`. -/
def parsePartsE (s : String) : Except Unit (List VPart) :=
  (splitBy isSep s.toList).foldlM (fun acc seg =>
    match classifyE seg with
    | .error e => .error e
    | .ok none => .ok acc
    | .ok (some p) => .ok (acc ++ [p])) []

/-- The `MavenVersion(version_str)` constructor with the raise path. -/
def MavenVersion.makeE (s : String) : Except Unit MavenVersion :=
  (parsePartsE s).map fun parts => ⟨s, parts⟩

/-- `MavenVersion(v) if v else None`, with the raise path. -/
def makeOptE (v : List Char) : Except Unit (Option MavenVersion) :=
  if v ≠ [] then (MavenVersion.makeE (String.mk v)).map some else .ok none

/-- `parseGroup` with every raise path explicit: the `IndexError`
candidate at `versions[0]` and the `ValueError` of the two interior
`MavenVersion` constructions. -/
def parseGroupE (acc : List VInterval) (raw : List Char) : Except Unit (List VInterval) :=
  let part := pyStrip raw
  if part = [] then .ok acc
  else if part.head? = some '[' ∨ part.head? = some '(' then
    let min_inclusive : Bool := part.head? = some '['
    let part := part.tail
    let maxp : Bool × List Char :=
      if part.getLast? = some ']' ∨ part.getLast? = some ')' then
        (part.getLast? = some ']', part.dropLast)
      else (false, part)
    let versions := (splitBy (fun c => c = ',') maxp.2).map pyStrip
    match versions with
    | [] => .error ()
    | v0 :: rest =>
      match makeOptE v0 with
      | .error e => .error e
      | .ok min_ver =>
        match (match rest.head? with
          | some v1 => makeOptE v1
          | none => .ok none) with
        | .error e => .error e
        | .ok max_ver =>
          .ok (acc ++ [(min_ver, min_inclusive, max_ver, maxp.1)])
  else .ok acc

/-- `VersionRange.parse` with every raise path explicit, including the
`ValueError` of the `MavenVersion` constructions inside it. -/
def VersionRange.parseFull (range_str : String) : Except Unit VersionRange :=
  let s := pyStrip range_str.toList
  if s.any rangeSpecialChar then
    match (splitBy (fun c => c = ',') s).foldlM parseGroupE [] with
    | .error e => .error e
    | .ok intervals =>
      if intervals = [] then
        (MavenVersion.makeE (String.mk s)).map fun mv =>
          ⟨[(some mv, true, none, false)]⟩
      else .ok ⟨intervals⟩
  else
    (MavenVersion.makeE (String.mk s)).map fun mv =>
      ⟨[(some mv, true, none, false)]⟩

/-- The checker's inner step with the full exception model: the `try`
block covers both the range parse and the version construction, and either
raise is caught as the `cannot verify` finding. -/
def stepDepE (mod_map : List (String × ModInfo)) (mod : ModInfo)
    (acc : Bool × List Issue) (dep : Dependency) : Bool × List Issue :=
  if dep.is_special || ! dep.mandatory then acc
  else
    match List.lookup dep.mod_id mod_map with
    | none =>
      (false, acc.2 ++ [⟨mod.name, mod.mod_id, dep.mod_id, dep.version_range, .missing⟩])
    | some dep_mod =>
      match VersionRange.parseFull dep.version_range with
      | .error _ =>
        (acc.1, acc.2 ++ [⟨mod.name, mod.mod_id, dep.mod_id, dep.version_range, .unverifiable⟩])
      | .ok version_range =>
        match MavenVersion.makeE dep_mod.version with
        | .error _ =>
          (acc.1, acc.2 ++ [⟨mod.name, mod.mod_id, dep.mod_id, dep.version_range, .unverifiable⟩])
        | .ok dep_version =>
          if version_range.contains dep_version then
            (acc.1, acc.2 ++ [⟨mod.name, mod.mod_id, dep.mod_id, dep.version_range, .pass⟩])
          else
            (false, acc.2 ++ [⟨mod.name, mod.mod_id, dep.mod_id, dep.version_range, .incompatible⟩])

/-- `DependencyChecker.check_dependencies` with the full exception
model. -/
def check_dependenciesE (mods : List ModInfo) : Bool × List Issue :=
  let mod_map := buildModMap mods
  mods.foldl (fun acc mod => mod.dependencies.foldl (stepDepE mod_map mod) acc) (true, [])

/-- The finding of a single mandatory non-virtual dependency under the full
exception model. -/
def depIssueE (mod_map : List (String × ModInfo)) (mod : ModInfo)
    (dep : Dependency) : Option Issue :=
  if dep.is_special || ! dep.mandatory then none
  else some (
    match List.lookup dep.mod_id mod_map with
    | none => ⟨mod.name, mod.mod_id, dep.mod_id, dep.version_range, .missing⟩
    | some dep_mod =>
      match VersionRange.parseFull dep.version_range with
      | .error _ => ⟨mod.name, mod.mod_id, dep.mod_id, dep.version_range, .unverifiable⟩
      | .ok version_range =>
        match MavenVersion.makeE dep_mod.version with
        | .error _ => ⟨mod.name, mod.mod_id, dep.mod_id, dep.version_range, .unverifiable⟩
        | .ok dep_version =>
          if version_range.contains dep_version then
            ⟨mod.name, mod.mod_id, dep.mod_id, dep.version_range, .pass⟩
          else
            ⟨mod.name, mod.mod_id, dep.mod_id, dep.version_range, .incompatible⟩)

/-- A dependency whose declared range is the superscript-two digit:
`str.isdigit` accepts the segment but `int()` raises, so the range is
unparseable in the real program. -/
def depBad : Dependency := ⟨"d", "²", true, "NONE", false⟩

/-- A dependency with an ordinary soft range on the same target. -/
def depGood : Dependency := ⟨"d", "1.0", true, "NONE", false⟩

/-- The record declaring the unparseable range on target `d`. -/
def modUser : ModInfo := ⟨"u", "U", "1.0", [depBad], []⟩

/-- The record declaring the ordinary range on target `d`. -/
def modUser2 : ModInfo := ⟨"u", "U", "1.0", [depGood], []⟩

/-- The target record `d`, present in the lookup. -/
def modDep : ModInfo := ⟨"d", "D", "1.0", [], []⟩

/-- The splitter never returns an empty list of segments (Python's
`str.split` always yields at least one element). -/
theorem splitBy_ne_nil (p : Char → Bool) : ∀ l, splitBy p l ≠ [] := by
  intro l
  induction l with
  | nil => simp [splitBy]
  | cons c rest ih =>
    simp only [splitBy]
    split
    · simp
    · split
      · simp
      · simp

/-- Splitting distributes over an interior delimiter occurrence. -/
theorem splitBy_append_sep (p : Char → Bool) (c : Char) (hc : p c = true) :
    ∀ l1 l2, splitBy p (l1 ++ c :: l2) = splitBy p l1 ++ splitBy p l2 := by
  intro l1 l2
  induction l1 with
  | nil => simp [splitBy, hc]
  | cons d rest ih =>
    by_cases hd : p d
    · simp [splitBy, hd, ih]
    · simp only [List.cons_append, splitBy, hd, Bool.false_eq_true, if_false,
        List.append_eq, ih]
      cases h : splitBy p rest with
      | nil => exact absurd h (splitBy_ne_nil p rest)
      | cons s ss => simp [h]

/-- A delimiter-free list is one whole segment. -/
theorem splitBy_no_sep (p : Char → Bool) :
    ∀ l, (∀ c ∈ l, p c = false) → splitBy p l = [l] := by
  intro l h
  induction l with
  | nil => simp [splitBy]
  | cons d rest ih =>
    have hd : p d = false := h d (by simp)
    simp [splitBy, hd, ih fun c hc => h c (by simp [hc])]

/-- A part ties positionally with itself. -/
theorem partCmp_self (x : VPart) : partCmp x x = 0 := by
  cases x <;> simp [partCmp]

/-- Appending one qualifier part to a part sequence makes it compare
strictly below the original: the extra qualifier meets the implicit
`('int', 0)` pad. -/
theorem cmpParts_append_qualifier (r : Nat) (t : String) :
    ∀ ps, cmpParts (ps ++ [VPart.qualifier r t]) ps = -1 := by
  intro ps
  induction ps with
  | nil => simp [cmpParts, partCmp]
  | cons x rest ih => simp [cmpParts, partCmp_self, ih]

/-- Parsing `v + "-" + q` for a delimiter-free qualifier token `q` yields
the parts of `v` followed by the qualifier part. -/
theorem parseParts_append_qualifier (v q : String) (r : Nat) (t : String)
    (hsep : ∀ c ∈ q.toList, isSep c = false)
    (hq : classify q.toList = some (VPart.qualifier r t)) :
    parseParts (v ++ "-" ++ q) = parseParts v ++ [VPart.qualifier r t] := by
  unfold parseParts
  have hl : (v ++ "-" ++ q).toList = v.toList ++ '-' :: q.toList := by
    simp [String.toList, String.data_append]
  rw [hl, splitBy_append_sep isSep '-' (by simp [isSep]),
    splitBy_no_sep isSep q.toList hsep]
  simp [List.filterMap_append, List.filterMap,
    show classify q.data = some (VPart.qualifier r t) from hq]

/-- The inner accumulation loop of `intersect` appends exactly the
surviving pairs against one fixed left interval. -/
theorem foldl_pairAppend (x : VInterval) :
    ∀ (lb : List VInterval) (acc : List VInterval),
      lb.foldl (fun acc int2 =>
        match intersectPair x int2 with
        | some iv => acc ++ [iv]
        | none => acc) acc = acc ++ lb.filterMap fun i2 => intersectPair x i2 := by
  intro lb
  induction lb with
  | nil => simp
  | cons y ys ih =>
    intro acc
    cases h : intersectPair x y <;> simp [List.filterMap_cons, h, ih]

/-- The nested accumulation loops of `intersect` flatten to all surviving
pairs in left-major order. -/
theorem intersect_spec_aux (lb : List VInterval) :
    ∀ (la : List VInterval) (acc : List VInterval),
      la.foldl (fun acc int1 =>
        lb.foldl (fun acc int2 =>
          match intersectPair int1 int2 with
          | some iv => acc ++ [iv]
          | none => acc) acc) acc
      = acc ++ la.flatMap fun i1 => lb.filterMap fun i2 => intersectPair i1 i2 := by
  intro la
  induction la with
  | nil => simp
  | cons x xs ih =>
    intro acc
    simp only [List.foldl_cons, ih, List.flatMap_cons]
    rw [foldl_pairAppend x lb acc]
    simp [List.append_assoc]

/-- The source's pairwise interval intersection coincides with the claim's
description of it. -/
theorem intersectPair_eq_claimPair (i1 i2 : VInterval) :
    intersectPair i1 i2 = claimPair i1 i2 := by
  obtain ⟨min1, min_inc1, max1, max_inc1⟩ := i1
  obtain ⟨min2, min_inc2, max2, max_inc2⟩ := i2
  cases min1 <;> cases min2 <;> cases max1 <;> cases max2 <;>
    simp [intersectPair, claimPair, claimMin, claimMax, MavenVersion.gtb,
      MavenVersion.ltb, MavenVersion.beq] <;>
    (repeat' split) <;> simp_all

/-- One checker step equals applying the claim-side classification of that
dependency to the accumulator. -/
theorem stepDep_eq (mod_map : List (String × ModInfo)) (mod : ModInfo)
    (acc : Bool × List Issue) (dep : Dependency) :
    stepDep mod_map mod acc dep =
      match depIssue mod_map mod dep with
      | none => acc
      | some i => (acc.1 && issueOk i, acc.2 ++ [i]) := by
  unfold stepDep depIssue
  split
  · rfl
  · split
    · simp [issueOk]
    · split
      · simp [issueOk]
      · split <;> simp [issueOk]

/-- The per-record dependency loop of the checker, characterised:
the flag is conjoined with the acceptability of each produced finding and
the findings are appended in dependency order. -/
theorem depsFold_eq (mod_map : List (String × ModInfo)) (mod : ModInfo) :
    ∀ (deps : List Dependency) (acc : Bool × List Issue),
      deps.foldl (stepDep mod_map mod) acc =
        (acc.1 && (deps.filterMap (depIssue mod_map mod)).all issueOk,
         acc.2 ++ deps.filterMap (depIssue mod_map mod)) := by
  intro deps
  induction deps with
  | nil => intro acc; simp
  | cons d ds ih =>
    intro acc
    rw [List.foldl_cons, stepDep_eq]
    cases h : depIssue mod_map mod d with
    | none => simp [List.filterMap_cons, h, ih]
    | some i => simp [List.filterMap_cons, h, ih, Bool.and_assoc]

/-- The record loop of the checker, characterised in record order. -/
theorem modsFold_eq (mod_map : List (String × ModInfo)) :
    ∀ (ms : List ModInfo) (acc : Bool × List Issue),
      ms.foldl (fun acc mod => mod.dependencies.foldl (stepDep mod_map mod) acc) acc =
        (acc.1 && (ms.flatMap fun mod =>
            mod.dependencies.filterMap (depIssue mod_map mod)).all issueOk,
         acc.2 ++ ms.flatMap fun mod =>
            mod.dependencies.filterMap (depIssue mod_map mod)) := by
  intro ms
  induction ms with
  | nil => intro acc; simp
  | cons m rest ih =>
    intro acc
    rw [List.foldl_cons, depsFold_eq, ih]
    simp [List.flatMap_cons, Bool.and_assoc]

/-- `check_dependencies` returns exactly the ordered specification findings
together with their conjoined acceptability. -/
theorem check_dependencies_spec (mods : List ModInfo) :
    check_dependencies mods = ((specFindings mods).all issueOk, specFindings mods) := by
  unfold check_dependencies specFindings
  rw [modsFold_eq]
  simp

/-- Stripping the comma-split segments never yields an empty list of
segments. -/
theorem mapStrip_ne_nil (x : List Char) :
    (splitBy (fun c => c = ',') x).map pyStrip ≠ [] := by
  intro h
  exact splitBy_ne_nil _ x (List.map_eq_nil_iff.mp h)

/-- One group of `VersionRange.parse` never raises: the interior comma
split always has a first element. -/
theorem parseGroup_isSome (acc : List VInterval) (raw : List Char) :
    ∃ out, parseGroup acc raw = some out := by
  unfold parseGroup
  dsimp only
  split
  · exact ⟨acc, rfl⟩
  split
  · split
    · rename_i heq
      exact absurd heq (mapStrip_ne_nil _)
    · exact ⟨_, rfl⟩
  · exact ⟨acc, rfl⟩

/-- The whole group loop of `VersionRange.parse` never raises. -/
theorem foldlM_parseGroup_isSome :
    ∀ (parts : List (List Char)) (acc : List VInterval),
      ∃ out, List.foldlM parseGroup acc parts = some out := by
  intro parts
  induction parts with
  | nil => intro acc; exact ⟨acc, rfl⟩
  | cons x xs ih =>
    intro acc
    obtain ⟨mid, hmid⟩ := parseGroup_isSome acc x
    obtain ⟨out, hout⟩ := ih mid
    exact ⟨out, by simp [List.foldlM_cons, hmid, hout]⟩

/-- `VersionRange.parse` succeeds on every input string and the parsed
range always carries at least one interval. -/
theorem parseE_spec (s : String) :
    ∃ r, VersionRange.parseE s = some r ∧ r.intervals ≠ [] := by
  unfold VersionRange.parseE
  dsimp only
  split
  · obtain ⟨out, hout⟩ :=
      foldlM_parseGroup_isSome (splitBy (fun c => c = ',') (pyStrip s.toList)) []
    rw [hout]
    dsimp only
    split
    · exact ⟨_, rfl, by simp⟩
    · rename_i hne
      exact ⟨_, rfl, hne⟩
  · exact ⟨_, rfl, by simp⟩

/-- A produced finding is never UNVERIFIABLE, because parsing the range
never fails. -/
theorem depIssue_kinds (mod_map : List (String × ModInfo)) (mod : ModInfo)
    (dep : Dependency) (f : Issue) (h : depIssue mod_map mod dep = some f) :
    f.kind ≠ IssueKind.unverifiable := by
  obtain ⟨r, hr, _⟩ := parseE_spec dep.version_range
  unfold depIssue at h
  rw [hr] at h
  split at h
  · simp at h
  · rw [Option.some.injEq] at h
    subst h
    split
    · simp
    · dsimp only
      split <;> simp

/-- Reading a key after the alias assignments of one record: any key the
record maps hits that record, anything else falls through. -/
theorem lookup_providesFold (mod : ModInfo) (k : String) :
    ∀ (ps : List String) (acc : List (String × ModInfo)),
      List.lookup k (ps.foldl (fun m pid => (pid, mod) :: m) acc) =
        if k ∈ ps then some mod else List.lookup k acc := by
  intro ps
  induction ps with
  | nil => intro acc; simp
  | cons p rest ih =>
    intro acc
    rw [List.foldl_cons, ih]
    by_cases hk : k ∈ rest
    · simp [hk]
    · by_cases hp : k = p
      · simp [hk, hp, List.lookup]
      · have hb : (k == p) = false := by simp [hp]
        simp [hk, List.lookup, hb, hp]

/-- Reading a key after one whole record is processed. -/
theorem lookup_insRecord (mod_map : List (String × ModInfo)) (mod : ModInfo) (k : String) :
    List.lookup k (insRecord mod_map mod) =
      if k = mod.mod_id ∨ k ∈ mod.provides then some mod
      else List.lookup k mod_map := by
  unfold insRecord
  rw [lookup_providesFold]
  by_cases hp : k ∈ mod.provides
  · simp [hp]
  · by_cases hid : k = mod.mod_id
    · simp [hp, hid, List.lookup]
    · have hb : (k == mod.mod_id) = false := by simp [hid]
      simp [hp, List.lookup, hb, hid]

/-- Records that do not map a key leave its lookup unchanged. -/
theorem lookup_buildFold (k : String) :
    ∀ (ms : List ModInfo) (base : List (String × ModInfo)),
      (∀ m2 ∈ ms, ¬ (k = m2.mod_id ∨ k ∈ m2.provides)) →
      List.lookup k (ms.foldl insRecord base) = List.lookup k base := by
  intro ms
  induction ms with
  | nil => intro base _; rfl
  | cons m rest ih =>
    intro base h
    rw [List.foldl_cons, ih _ fun m2 hm2 => h m2 (by simp [hm2]), lookup_insRecord]
    simp [h m (by simp)]

/-- `list.remove` returns an order-preserving sublist of its input. -/
theorem pyRemove_sublist :
    ∀ (l : List String) (a : String) (l2 : List String),
      pyRemove l a = some l2 → List.Sublist l2 l := by
  intro l
  induction l with
  | nil => intro a l2 h; simp [pyRemove] at h
  | cons x xs ih =>
    intro a l2 h
    unfold pyRemove at h
    split at h
    · rw [Option.some.injEq] at h
      subst h
      exact List.sublist_cons_self x xs
    · cases hr : pyRemove xs a with
      | none => rw [hr] at h; exact Option.noConfusion h
      | some ys =>
        rw [hr] at h
        simp only [Option.map_some', Option.some.injEq] at h
        subst h
        exact List.Sublist.cons₂ x (ih a ys hr)

/-- Phase 1 of `search_modrinth` only removes elements from the caller's
`slugs` list. -/
theorem phase1_slugs_sublist :
    ∀ (pv : List (MRProject × MRVersion)) (result : List MRVersion)
      (slugs bucket : List String) (out : List MRVersion × List String × List String),
      phase1 pv result slugs bucket = some out → List.Sublist out.2.1 slugs := by
  intro pv
  induction pv with
  | nil =>
    intro result slugs bucket out h
    unfold phase1 at h
    rw [Option.some.injEq] at h
    subst h
    exact List.Sublist.refl slugs
  | cons pvx rest ih =>
    intro result slugs bucket out h
    obtain ⟨project, version⟩ := pvx
    unfold phase1 at h
    cases hr : pyRemove slugs project.slug with
    | none => rw [hr] at h; exact Option.noConfusion h
    | some slugs2 =>
      rw [hr] at h
      exact (ih _ _ _ _ h).trans (pyRemove_sublist slugs project.slug slugs2 hr)

theorem isDigit_pyCharIsDigit {c : Char} (h : c.isDigit = true) :
    pyCharIsDigit c = true := by
  simp [pyCharIsDigit, h]

theorem strSafe_charsSafe {s : String} (h : strSafe s = true) : charsSafe s.toList := by
  intro c hc hdig
  rw [strSafe, List.all_eq_true] at h
  have hco := h c hc
  simp only [hdig, Bool.not_true, Bool.false_or] at hco
  exact hco

theorem charsSafe_sub {l1 l2 : List Char} (h : charsSafe l2)
    (hsub : ∀ c ∈ l1, c ∈ l2) : charsSafe l1 :=
  fun c hc => h c (hsub c hc)

theorem mem_of_mem_splitBy (p : Char → Bool) :
    ∀ (l : List Char) (seg : List Char), seg ∈ splitBy p l → ∀ c ∈ seg, c ∈ l := by
  intro l
  induction l with
  | nil =>
    intro seg hseg c hc
    simp [splitBy] at hseg
    subst hseg
    simp at hc
  | cons d rest ih =>
    intro seg hseg c hc
    by_cases hd : p d
    · simp only [splitBy, hd, if_true, List.mem_cons] at hseg
      rcases hseg with h1 | h2
      · subst h1; simp at hc
      · exact List.mem_cons_of_mem d (ih seg h2 c hc)
    · simp only [splitBy, hd, Bool.false_eq_true, if_false] at hseg
      cases hsp : splitBy p rest with
      | nil => exact absurd hsp (splitBy_ne_nil p rest)
      | cons s ss =>
        rw [hsp] at hseg
        rcases List.mem_cons.mp hseg with h1 | h2
        · subst h1
          rcases List.mem_cons.mp hc with h3 | h4
          · subst h3; simp
          · exact List.mem_cons_of_mem d (ih s (by rw [hsp]; simp) c h4)
        · exact List.mem_cons_of_mem d (ih seg (by rw [hsp]; simp [h2]) c hc)

theorem mem_pyStrip (l : List Char) : ∀ c ∈ pyStrip l, c ∈ l := by
  intro c hc
  unfold pyStrip at hc
  rw [List.mem_reverse] at hc
  have h1 := (List.dropWhile_sublist _).subset hc
  rw [List.mem_reverse] at h1
  exact (List.dropWhile_sublist _).subset h1

theorem mem_tail {α : Type} (l : List α) : ∀ c ∈ l.tail, c ∈ l := by
  cases l <;> simp_all

theorem classifyE_safe (seg : List Char) (h : charsSafe seg) :
    classifyE seg = .ok (classify seg) := by
  by_cases hd : seg ≠ [] ∧ seg.all pyCharIsDigit
  · have hdec : seg.all pyCharIsDecimal = true := by
      rw [List.all_eq_true]
      intro c hc
      exact h c hc ((List.all_eq_true.mp hd.2) c hc)
    have hdig : seg.all Char.isDigit = true := hdec
    simp [classifyE, classify, hd, hdec, hdig]
  · have hnd : ¬ (seg ≠ [] ∧ seg.all Char.isDigit) := by
      intro hcon
      refine hd ⟨hcon.1, ?_⟩
      rw [List.all_eq_true] at hcon ⊢
      exact fun c hc => isDigit_pyCharIsDigit (hcon.2 c hc)
    simp only [classifyE, classify, hd, hnd, if_false]
    split
    · rfl
    · split <;> rfl

theorem foldlM_classifyE_safe :
    ∀ (segs : List (List Char)) (acc : List VPart),
      (∀ seg ∈ segs, charsSafe seg) →
      List.foldlM (fun acc seg =>
        (match classifyE seg with
        | .error e => .error e
        | .ok none => .ok acc
        | .ok (some p) => .ok (acc ++ [p]) : Except Unit (List VPart))) acc segs
      = .ok (acc ++ segs.filterMap classify) := by
  intro segs
  induction segs with
  | nil => intro acc _; simp; rfl
  | cons seg rest ih =>
    intro acc hsafe
    rw [List.foldlM_cons, classifyE_safe seg (hsafe seg (by simp))]
    cases hc : classify seg with
    | none =>
      simp only [hc, List.filterMap_cons]
      show List.foldlM _ acc rest = _
      exact ih acc fun g hg => hsafe g (by simp [hg])
    | some p =>
      simp only [hc, List.filterMap_cons]
      show List.foldlM _ (acc ++ [p]) rest = _
      rw [ih (acc ++ [p]) fun g hg => hsafe g (by simp [hg])]
      simp

theorem parsePartsE_safe (s : String) (h : charsSafe s.toList) :
    parsePartsE s = .ok (parseParts s) := by
  unfold parsePartsE parseParts
  rw [foldlM_classifyE_safe _ [] fun seg hseg =>
    charsSafe_sub h (mem_of_mem_splitBy isSep s.toList seg hseg)]
  simp

theorem makeE_safe (s : String) (h : charsSafe s.toList) :
    MavenVersion.makeE s = .ok (MavenVersion.make s) := by
  unfold MavenVersion.makeE MavenVersion.make
  rw [parsePartsE_safe s h]
  rfl

theorem makeOptE_safe (v : List Char) (h : charsSafe v) :
    makeOptE v =
      .ok (if v ≠ [] then some (MavenVersion.make (String.mk v)) else none) := by
  unfold makeOptE
  split
  · rw [makeE_safe (String.mk v) h]
    rfl
  · rfl

theorem parseGroupE_core (X : List Char) (hX : charsSafe X)
    (acc : List VInterval) (mi ma : Bool) :
    ∃ out,
      (match (splitBy (fun c => c = ',') X).map pyStrip with
        | [] => (.error () : Except Unit (List VInterval))
        | v0 :: rest =>
          match makeOptE v0 with
          | .error e => .error e
          | .ok min_ver =>
            match (match rest.head? with
              | some v1 => makeOptE v1
              | none => .ok none) with
            | .error e => .error e
            | .ok max_ver => .ok (acc ++ [(min_ver, mi, max_ver, ma)])) = .ok out := by
  cases hv : (splitBy (fun c => c = ',') X).map pyStrip with
  | nil => exact absurd hv (mapStrip_ne_nil X)
  | cons v0 rest =>
    have hv0 : charsSafe v0 := by
      have hm : v0 ∈ (splitBy (fun c => c = ',') X).map pyStrip := by
        rw [hv]; simp
      obtain ⟨u, hu, hpu⟩ := List.mem_map.mp hm
      rw [← hpu]
      exact charsSafe_sub (charsSafe_sub hX (mem_of_mem_splitBy _ X u hu)) (mem_pyStrip u)
    dsimp only
    rw [makeOptE_safe v0 hv0]
    dsimp only
    cases hr : rest.head? with
    | none => exact ⟨_, rfl⟩
    | some v1 =>
      have hv1m : v1 ∈ rest := by
        cases rest with
        | nil => simp at hr
        | cons a t =>
          simp only [List.head?_cons, Option.some.injEq] at hr
          subst hr
          simp
      have hv1 : charsSafe v1 := by
        have hm : v1 ∈ (splitBy (fun c => c = ',') X).map pyStrip := by
          rw [hv]
          exact List.mem_cons_of_mem v0 hv1m
        obtain ⟨u, hu, hpu⟩ := List.mem_map.mp hm
        rw [← hpu]
        exact charsSafe_sub (charsSafe_sub hX (mem_of_mem_splitBy _ X u hu)) (mem_pyStrip u)
      dsimp only
      rw [makeOptE_safe v1 hv1]
      dsimp only
      exact ⟨_, rfl⟩

theorem parseGroupE_isOk (raw : List Char) (h : charsSafe raw) (acc : List VInterval) :
    ∃ out, parseGroupE acc raw = .ok out := by
  have hstrip : charsSafe (pyStrip raw) := charsSafe_sub h (mem_pyStrip raw)
  have htail : charsSafe (pyStrip raw).tail := charsSafe_sub hstrip (mem_tail _)
  unfold parseGroupE
  dsimp only
  split
  · exact ⟨acc, rfl⟩
  split
  · by_cases hb : (pyStrip raw).tail.getLast? = some ']' ∨
        (pyStrip raw).tail.getLast? = some ')'
    · rw [if_pos hb]
      exact parseGroupE_core (pyStrip raw).tail.dropLast
        (charsSafe_sub htail fun c hc => (List.dropLast_sublist _).subset hc) acc _ _
    · rw [if_neg hb]
      exact parseGroupE_core (pyStrip raw).tail htail acc _ _
  · exact ⟨acc, rfl⟩

theorem foldlM_parseGroupE_isOk :
    ∀ (groups : List (List Char)) (acc : List VInterval),
      (∀ g ∈ groups, charsSafe g) →
      ∃ out, List.foldlM parseGroupE acc groups = .ok out := by
  intro groups
  induction groups with
  | nil => intro acc _; exact ⟨acc, rfl⟩
  | cons g rest ih =>
    intro acc hsafe
    obtain ⟨mid, hmid⟩ := parseGroupE_isOk g (hsafe g (by simp)) acc
    obtain ⟨out, hout⟩ := ih mid fun x hx => hsafe x (by simp [hx])
    exact ⟨out, by rw [List.foldlM_cons, hmid]; exact hout⟩

theorem parseFull_isOk (s : String) (h : strSafe s = true) :
    (VersionRange.parseFull s).isOk = true := by
  have hcs : charsSafe s.toList := strSafe_charsSafe h
  have hstrip : charsSafe (pyStrip s.toList) := charsSafe_sub hcs (mem_pyStrip _)
  unfold VersionRange.parseFull
  dsimp only
  split
  · obtain ⟨out, hout⟩ := foldlM_parseGroupE_isOk
      (splitBy (fun c => c = ',') (pyStrip s.toList)) []
      fun g hg => charsSafe_sub hstrip (mem_of_mem_splitBy _ _ g hg)
    rw [hout]
    dsimp only
    split
    · rw [makeE_safe (String.mk (pyStrip s.toList)) hstrip]
      rfl
    · rfl
  · rw [makeE_safe (String.mk (pyStrip s.toList)) hstrip]
    rfl

theorem lookup_foldl_mem :
    ∀ (ms : List ModInfo) (base : List (String × ModInfo)) (k : String) (m : ModInfo),
      List.lookup k (ms.foldl insRecord base) = some m →
      m ∈ ms ∨ List.lookup k base = some m := by
  intro ms
  induction ms with
  | nil => intro base k m h; right; exact h
  | cons x xs ih =>
    intro base k m h
    rw [List.foldl_cons] at h
    rcases ih (insRecord base x) k m h with hmem | hbase
    · left; exact List.mem_cons_of_mem x hmem
    · rw [lookup_insRecord] at hbase
      split at hbase
      · rw [Option.some.injEq] at hbase
        subst hbase
        left
        simp
      · right; exact hbase

theorem lookup_buildModMap_mem (mods : List ModInfo) (k : String) (m : ModInfo)
    (h : List.lookup k (buildModMap mods) = some m) : m ∈ mods := by
  rcases lookup_foldl_mem mods [] k m h with h1 | h2
  · exact h1
  · simp [List.lookup] at h2

theorem stepDepE_eq (mod_map : List (String × ModInfo)) (mod : ModInfo)
    (acc : Bool × List Issue) (dep : Dependency) :
    stepDepE mod_map mod acc dep =
      match depIssueE mod_map mod dep with
      | none => acc
      | some i => (acc.1 && issueOk i, acc.2 ++ [i]) := by
  unfold stepDepE depIssueE
  split
  · rfl
  · split
    · simp [issueOk]
    · split
      · simp [issueOk]
      · split
        · simp [issueOk]
        · split <;> simp [issueOk]

theorem depsFoldE_eq (mod_map : List (String × ModInfo)) (mod : ModInfo) :
    ∀ (deps : List Dependency) (acc : Bool × List Issue),
      deps.foldl (stepDepE mod_map mod) acc =
        (acc.1 && (deps.filterMap (depIssueE mod_map mod)).all issueOk,
         acc.2 ++ deps.filterMap (depIssueE mod_map mod)) := by
  intro deps
  induction deps with
  | nil => intro acc; simp
  | cons d ds ih =>
    intro acc
    rw [List.foldl_cons, stepDepE_eq]
    cases h : depIssueE mod_map mod d with
    | none => simp [List.filterMap_cons, h, ih]
    | some i => simp [List.filterMap_cons, h, ih, Bool.and_assoc]

theorem modsFoldE_eq (mod_map : List (String × ModInfo)) :
    ∀ (ms : List ModInfo) (acc : Bool × List Issue),
      ms.foldl (fun acc mod => mod.dependencies.foldl (stepDepE mod_map mod) acc) acc =
        (acc.1 && (ms.flatMap fun mod =>
            mod.dependencies.filterMap (depIssueE mod_map mod)).all issueOk,
         acc.2 ++ ms.flatMap fun mod =>
            mod.dependencies.filterMap (depIssueE mod_map mod)) := by
  intro ms
  induction ms with
  | nil => intro acc; simp
  | cons m rest ih =>
    intro acc
    rw [List.foldl_cons, depsFoldE_eq, ih]
    simp [List.flatMap_cons, Bool.and_assoc]

theorem checkE_spec (mods : List ModInfo) :
    check_dependenciesE mods =
      ((mods.flatMap fun mod =>
          mod.dependencies.filterMap (depIssueE (buildModMap mods) mod)).all issueOk,
       mods.flatMap fun mod =>
          mod.dependencies.filterMap (depIssueE (buildModMap mods) mod)) := by
  unfold check_dependenciesE
  rw [modsFoldE_eq]
  simp

theorem depIssueE_kinds_safe (mod_map : List (String × ModInfo)) (mod : ModInfo)
    (dep : Dependency) (f : Issue)
    (hrange : strSafe dep.version_range = true)
    (hver : ∀ dm, List.lookup dep.mod_id mod_map = some dm → strSafe dm.version = true)
    (h : depIssueE mod_map mod dep = some f) :
    f.kind ≠ IssueKind.unverifiable := by
  unfold depIssueE at h
  split at h
  · simp at h
  · rw [Option.some.injEq] at h
    subst h
    cases hL : List.lookup dep.mod_id mod_map with
    | none => simp [hL]
    | some dm =>
      have hpf := parseFull_isOk dep.version_range hrange
      cases hpv : VersionRange.parseFull dep.version_range with
      | error e => rw [hpv] at hpf; simp [Except.isOk, Except.toBool] at hpf
      | ok vr =>
        obtain ⟨mv, hmv⟩ :
            ∃ mv, MavenVersion.makeE dm.version = .ok mv :=
          ⟨_, makeE_safe dm.version (strSafe_charsSafe (hver dm hL))⟩
        simp only [hL, hpv, hmv]
        split <;> simp

theorem checkE_no_unverifiable_safe (mods : List ModInfo) (hm : modsSafe mods = true) :
    ((check_dependenciesE mods).2.all fun f => ! (f.kind == IssueKind.unverifiable)) = true := by
  rw [checkE_spec]
  dsimp only
  rw [List.all_eq_true]
  intro f hf
  rw [List.mem_flatMap] at hf
  obtain ⟨mod, hmod, hf⟩ := hf
  rw [List.mem_filterMap] at hf
  obtain ⟨dep, hdep, hdi⟩ := hf
  rw [modsSafe, List.all_eq_true] at hm
  have hmodsafe := hm mod hmod
  rw [Bool.and_eq_true, List.all_eq_true] at hmodsafe
  have hkind := depIssueE_kinds_safe (buildModMap mods) mod dep f (hmodsafe.2 dep hdep)
    (fun dm hdm => by
      have hdm2 := lookup_buildModMap_mem mods dep.mod_id dm hdm
      have hsafe2 := hm dm hdm2
      rw [Bool.and_eq_true] at hsafe2
      exact hsafe2.1) hdi
  simpa using hkind

/-- C1: evaluation of `VersionRange.parse` and `contains` at the claim's
own inputs.  Because `parse` splits on every comma before reading the
brackets, `"[1.0,2.0)"` is parsed as the single lower-bounded interval
`[1.0, +inf)` — no upper bound survives — so `contains("2.0")` is `true`,
contradicting the claim (and the class docstring `[1.0,2.0) means >= 1.0
and < 2.0`); the `1.5` and soft-requirement checks behave as claimed. -/
theorem c1_bracket_parse_code_behavior :
    (VersionRange.parse "[1.0,2.0)").intervals =
      [(some (MavenVersion.make "1.0"), true, none, false)] ∧
    (VersionRange.parse "[1.0,2.0)").contains (MavenVersion.make "2.0") = true ∧
    (VersionRange.parse "[1.0,2.0)").contains (MavenVersion.make "1.5") = true ∧
    (VersionRange.parse "1.0").contains (MavenVersion.make "5.0") = true :=
  ⟨by decide, by decide, by decide, by decide⟩

/-- C2 counterexample: `MavenVersion("1.0")` and `MavenVersion("1.0.0")`
have different raw strings yet `__eq__` (order-equality via `_compare`)
reports them equal, so identifier equality is not raw-string equality. -/
theorem c2_counterexample :
    MavenVersion.beq (MavenVersion.make "1.0") (MavenVersion.make "1.0.0") = true ∧
    (MavenVersion.make "1.0").original ≠ (MavenVersion.make "1.0.0").original :=
  ⟨by decide, by decide⟩

/-- C2 amended: two `MavenVersion` values are equal under `__eq__` exactly
when their part sequences compare order-equal, while `__hash__` is keyed on
the raw input string. -/
theorem c2_identifier_equality_amended : ∀ a b : String,
    (MavenVersion.beq (MavenVersion.make a) (MavenVersion.make b) = true ↔
      MavenVersion.cmp (MavenVersion.make a) (MavenVersion.make b) = 0) ∧
    MavenVersion.pyhash (MavenVersion.make a) = a :=
  fun a b => ⟨by simp [MavenVersion.beq], rfl⟩

/-- C3: the CurseForge closure loop does not terminate.  With one resolved
file carrying a required dependency on mod id `42` and a registry whose
lookups return nothing (finite and trivially acyclic), the seen bucket
holds the slug string `m` while the filter tests the integer id `42`
against it, so `depModIds` never empties and the loop never reaches its
`break`: it exhausts any amount of fuel. -/
theorem c3_curseforge_loop_nonterminating :
    ∀ fuel, cfLoop cfRegX fuel [cfFileX] [PyVal.pystr "m"] = none := by
  intro fuel
  induction fuel with
  | zero => rfl
  | succ n ih => exact Eq.trans (by rfl) ih

/-- C4 counterexample: resolving the slug `amod` against a registry that
has it returns a final `slugs` state `[]`, not the entry state `["amod"]`:
`search_modrinth` removes resolved slugs from the caller's list. -/
theorem c4_counterexample :
    searchModrinth regC4 "1.20.1" "fabric" 3 ["amod"] none = some ([vC4], []) ∧
    (([] : List String) ≠ ["amod"]) :=
  ⟨by rfl, by decide⟩

/-- C4 amended: `search_modrinth` mutates the caller's `slugs` list by
removing the first occurrence of each resolved project's slug, so whenever
it returns, the final list is an order-preserving sublist of the entry
list (nothing is ever added or reordered; what remains is exactly the
unresolved identifiers). -/
theorem c4_slugs_mutation_amended (reg : MRRegistry) (mc_version mod_loader : String)
    (fuel : Nat) (slugs : List String) (releaseType : Option String)
    (res : List MRVersion) (slugs2 : List String)
    (h : searchModrinth reg mc_version mod_loader fuel slugs releaseType =
      some (res, slugs2)) :
    List.Sublist slugs2 slugs := by
  unfold searchModrinth at h
  dsimp only at h
  split at h
  · exact Option.noConfusion h
  · rename_i result1 slugs1 bucket1 heq
    split at h
    · exact Option.noConfusion h
    · rw [Option.some.injEq, Prod.mk.injEq] at h
      rw [← h.2]
      exact phase1_slugs_sublist _ _ _ _ _ heq

/-- C4 witness: the amended theorem applied to the concrete registry of
the counterexample. -/
theorem c4_witness : List.Sublist ([] : List String) ["amod"] :=
  c4_slugs_mutation_amended regC4 "1.20.1" "fabric" 3 ["amod"] none [vC4] [] (by rfl)

/-- C5: `intersect` returns exactly the surviving pairwise intersections,
in left-operand-major order, where each pair is combined and filtered as
the claim describes (`claimMin`, `claimMax`, and the discard rule of
`claimPair`). -/
theorem c5_intersect_pairwise : ∀ A B : VersionRange,
    (A.intersect B).intervals =
      A.intervals.flatMap fun i1 => B.intervals.filterMap fun i2 => claimPair i1 i2 := by
  intro A B
  show A.intervals.foldl _ [] = _
  rw [intersect_spec_aux B.intervals A.intervals []]
  simp [intersectPair_eq_claimPair]

/-- C6: the checker returns exactly the specification findings, in input
record order then per-record dependency order, and its overall flag is
`true` exactly when no finding is MISSING or INCOMPATIBLE (UNVERIFIABLE
findings are reported but do not count). -/
theorem c6_checker_result : ∀ mods : List ModInfo,
    check_dependencies mods = ((specFindings mods).all issueOk, specFindings mods) :=
  fun mods => check_dependencies_spec mods

/-- C7: appending any recognised qualifier segment (such as `final` or
`ga`) behind a dash makes the version compare strictly less than the
version without the suffix: the qualifier part meets the implicit
`('int', 0)` pad and qualifiers order below numerics. -/
theorem c7_trailing_qualifier_lt (v q : String) (r : Nat) (t : String)
    (hsep : ∀ c ∈ q.toList, isSep c = false)
    (hq : classify q.toList = some (VPart.qualifier r t)) :
    MavenVersion.ltb (MavenVersion.make (v ++ "-" ++ q)) (MavenVersion.make v) = true := by
  unfold MavenVersion.ltb MavenVersion.make MavenVersion.cmp
  simp only [parseParts_append_qualifier v q r t hsep hq]
  simp [cmpParts_append_qualifier]

/-- C7 witness: `MavenVersion("1.0-final") < MavenVersion("1.0")`. -/
theorem c7_witness :
    (∀ c ∈ "final".toList, isSep c = false) ∧
    MavenVersion.ltb (MavenVersion.make ("1.0" ++ "-" ++ "final"))
      (MavenVersion.make "1.0") = true :=
  ⟨by decide, c7_trailing_qualifier_lt "1.0" "final" 6 "final" (by decide) (by rfl)⟩

/-- C8: a directly parsed range always carries at least one interval, so
`is_empty` is `false` on every `VersionRange.parse` result; an empty
interval list can only come out of `intersect`. -/
theorem c8_parsed_range_nonempty : ∀ s : String,
    (VersionRange.parse s).is_empty = false := by
  intro s
  obtain ⟨r, hr, hne⟩ := parseE_spec s
  unfold VersionRange.parse
  rw [hr]
  simp [VersionRange.is_empty, List.length_eq_zero, hne]

/-- C9 counterexample: the superscript-two digit makes `str.isdigit`
accept a segment `int()` then rejects, so `MavenVersion` construction and
`VersionRange.parse` raise on the string `²`, and with the target record
present in the lookup, the checker's `cannot verify` branch is reached:
construction and parsing are not total over strings. -/
theorem c9_counterexample :
    MavenVersion.makeE "²" = .error () ∧
    VersionRange.parseFull "²" = .error () ∧
    check_dependenciesE [modUser, modDep] =
      (true, [⟨"U", "u", "d", "²", IssueKind.unverifiable⟩]) :=
  ⟨rfl, rfl, rfl⟩

/-- C9 amended: version construction and range parsing never raise — and
the checker never emits an UNVERIFIABLE finding, so a present target
always yields PASS or INCOMPATIBLE — on every input whose digit-class
characters are all decimal digits (in particular every ASCII version or
range string); totality fails only on a segment mixing in a digit-class
non-decimal character such as `²`. -/
theorem c9_amended (s : String) (mods : List ModInfo)
    (hs : strSafe s = true) (hm : modsSafe mods = true) :
    (MavenVersion.makeE s).isOk = true ∧
    (VersionRange.parseFull s).isOk = true ∧
    ((check_dependenciesE mods).2.all fun f => ! (f.kind == IssueKind.unverifiable)) = true := by
  refine ⟨?_, parseFull_isOk s hs, checkE_no_unverifiable_safe mods hm⟩
  rw [makeE_safe s (strSafe_charsSafe hs)]
  rfl

/-- C9 witness: the amended theorem applied at an ordinary range string
and a record list with one present, satisfied dependency. -/
theorem c9_witness :
    strSafe "[1.0,2.0)" = true ∧ modsSafe [modUser2, modDep] = true ∧
    ((MavenVersion.makeE "[1.0,2.0)").isOk = true ∧
     (VersionRange.parseFull "[1.0,2.0)").isOk = true ∧
     ((check_dependenciesE [modUser2, modDep]).2.all
        fun f => ! (f.kind == IssueKind.unverifiable)) = true) :=
  ⟨by decide, by decide,
    c9_amended "[1.0,2.0)" [modUser2, modDep] (by decide) (by decide)⟩

/-- C10: in the id-to-record map, insertion order decides collisions — a
key mapped by a record (primary id or alias) resolves to that record
whenever no later record maps the same key, so the last-inserted record
wins; `check_dependencies` resolves every dependency through exactly this
lookup. -/
theorem c10_last_insertion_wins (l1 : List ModInfo) (m : ModInfo) (l2 : List ModInfo)
    (k : String) (hk : k = m.mod_id ∨ k ∈ m.provides)
    (h2 : ∀ m2 ∈ l2, ¬ (k = m2.mod_id ∨ k ∈ m2.provides)) :
    List.lookup k (buildModMap (l1 ++ m :: l2)) = some m := by
  unfold buildModMap
  rw [List.foldl_append, List.foldl_cons, lookup_buildFold k l2 _ h2, lookup_insRecord]
  simp [hk]

/-- C10 witness: with two records sharing the primary id `x`, the later
one (`modB`) is the record the map returns. -/
theorem c10_witness :
    List.lookup "x" (buildModMap [modA, modB, modC]) = some modB :=
  c10_last_insertion_wins [modA] modB [modC] "x" (Or.inl rfl) (by decide)
